import Mathlib

set_option maxRecDepth 100000

/-!
Verification of the requirement-email processing pipeline
(`src/requirement_agent.py`, `src/ai_processor.py`).

Python strings are embedded as lists of characters (`Str`), and the string
primitives used by the source (`split`, `strip`, `replace`, `startswith`,
`lower`, substring containment) are given executable, structurally recursive
definitions matching Python semantics on the inputs the program uses.
Stateful parts (the MongoDB collection) are embedded as explicit state: the
collection is a list of stored documents threaded through the run, and
`update_one(filter, set, upsert=True)` becomes a replace-first-match-or-append
operation keyed by `thread_id`.  The external AI collaborator is embedded as
an environment giving, per thread, the outcome of each delegated call: `.ok v`
when the call returns `v`, `.error ()` when it raises.
-/

namespace ReqAgent

/-- A Python string, embedded as its sequence of characters. -/
abbrev Str := List Char

/-- Characters stripped by Python `str.strip()` with no argument
(ASCII whitespace; the program's inputs are ASCII). -/
def wsChar (c : Char) : Bool :=
  c = ' ' || c = '\t' || c = '\n' || c = '\r' || c = '\x0b' || c = '\x0c'

/-- Python `s.strip()`: remove leading and trailing whitespace. -/
def strip (s : Str) : Str :=
  ((s.dropWhile wsChar).reverse.dropWhile wsChar).reverse

/-- Fuel-driven worker for `splitOn`; the fuel is the length of the string
being scanned, which bounds the number of steps.  Scans left to right; at
each position, if the separator occurs there, the accumulated piece is closed
and the separator consumed (Python non-overlapping split semantics). -/
def splitOnFuel (sep : Str) : Nat → Str → Str → List Str
  | _, [], acc => [acc.reverse]
  | 0, s, acc => [acc.reverse ++ s]
  | fuel + 1, c :: cs, acc =>
    if sep.isPrefixOf (c :: cs) then
      acc.reverse :: splitOnFuel sep fuel (List.drop (sep.length - 1) cs) []
    else
      splitOnFuel sep fuel cs (c :: acc)

/-- Python `s.split(sep)` for a nonempty separator `sep` (the program only
splits on the nonempty literals used in the source; the empty-separator case
is given a harmless value and never used). -/
def splitOn (sep s : Str) : List Str :=
  if sep.isEmpty then [s] else splitOnFuel sep s.length s []

/-- Fuel-driven worker for `preplace`. -/
def preplaceFuel (pat repl : Str) : Nat → Str → Str
  | _, [] => []
  | 0, s => s
  | fuel + 1, c :: cs =>
    if pat.isPrefixOf (c :: cs) then
      repl ++ preplaceFuel pat repl fuel (List.drop (pat.length - 1) cs)
    else
      c :: preplaceFuel pat repl fuel cs

/-- Python `s.replace(pat, repl)`: replace every non-overlapping occurrence of
`pat`, scanning left to right.  The source only calls it with the nonempty
header tokens; the empty-pattern case (Python interleaves `repl`) is embedded
for totality. -/
def preplace (s pat repl : Str) : Str :=
  if pat.isEmpty then repl ++ s.foldr (fun c acc => c :: (repl ++ acc)) []
  else preplaceFuel pat repl s.length s

/-- Python `sub in s` (substring containment). -/
def containsSub (sub : Str) : Str → Bool
  | [] => sub.isEmpty
  | c :: cs => sub.isPrefixOf (c :: cs) || containsSub sub cs

/-- Python `s.lower()` (ASCII inputs). -/
def toLower (s : Str) : Str := s.map Char.toLower

/-- Character list of a Lean string literal, used to write the Python
literals of the source. -/
def str (s : String) : Str := s.data

/-- The dictionary built by `RequirementAgent._parse_single_email`: each of
the four header fields is present exactly when a corresponding header line
was seen (`none` embeds an absent key), and `body` is `none` only before the
final assignment `email_data['body'] = ...`. -/
structure EmailData where
  from_ : Option Str
  to_ : Option Str
  date : Option Str
  subject : Option Str
  body : Option Str
deriving DecidableEq

/-- The empty dictionary `email_data = {}`. -/
def EmailData.empty : EmailData :=
  { from_ := none, to_ := none, date := none, subject := none, body := none }

/-- Python truthiness of the dictionary: a dict is truthy iff it has at least
one key. -/
def EmailData.isTruthy (e : EmailData) : Bool :=
  e.from_.isSome || e.to_.isSome || e.date.isSome || e.subject.isSome ||
    e.body.isSome

/-- The loop body of `_parse_single_email` (lines 66-77 of
`requirement_agent.py`): scan the non-blank lines in order, carrying the
dict, the accumulated body lines, and the `parsing_body` flag. -/
def parseLinesLoop : List Str → EmailData → List Str → Bool →
    EmailData × List Str
  | [], d, bl, _ => (d, bl)
  | line :: rest, d, bl, pb =>
    if (str "From:").isPrefixOf line then
      parseLinesLoop rest
        { d with from_ := some (strip (preplace line (str "From:") [])) } bl pb
    else if (str "To:").isPrefixOf line then
      parseLinesLoop rest
        { d with to_ := some (strip (preplace line (str "To:") [])) } bl pb
    else if (str "Date:").isPrefixOf line then
      parseLinesLoop rest
        { d with date := some (strip (preplace line (str "Date:") [])) } bl pb
    else if (str "Subject:").isPrefixOf line then
      parseLinesLoop rest
        { d with subject := some (strip (preplace line (str "Subject:") [])) }
        bl true
    else if pb && !(strip line = str "---" : Bool) then
      parseLinesLoop rest d (bl ++ [strip line]) pb
    else
      parseLinesLoop rest d bl pb

/-- The list comprehension on line 60 of `requirement_agent.py`: the
non-blank lines of the segment, in order. -/
def nonblankLines (s : Str) : List Str :=
  (splitOn (str "\n") s).filter (fun l => !(strip l).isEmpty)

/-- `RequirementAgent._parse_single_email`: keep the non-blank lines, run the
scanning loop with an empty dict and `parsing_body = False`, then set
`email_data['body']` to the newline-join of the collected body lines. -/
def parseSingleEmail (emailText : Str) : EmailData :=
  let res := parseLinesLoop (nonblankLines emailText) EmailData.empty [] false
  { res.1 with body := some (List.intercalate (str "\n") res.2) }

/-- A parsed thread: identifier plus its emails in file order. -/
structure Thread where
  thread_id : Str
  emails : List EmailData
deriving DecidableEq

/-- The inner loop of `RequirementAgent.parse_email_file` over the email
segments of one block: blank segments are skipped, and a parsed dict is kept
exactly when it is truthy. -/
def partsLoop : List Str → List EmailData
  | [] => []
  | p :: ps =>
    if (strip p).isEmpty then partsLoop ps
    else
      let e := parseSingleEmail p
      if e.isTruthy then e :: partsLoop ps else partsLoop ps

/-- One iteration of the outer loop of `parse_email_file`: the block's first
line (after stripping the block) is the thread id, the segments after the
first `---` separator line are the email segments, and a thread is produced
exactly when at least one email was parsed. -/
def parseBlock (block : Str) : Option Thread :=
  if (partsLoop ((splitOn (str "---\n") block).drop 1)).isEmpty then none
  else
    some { thread_id := strip ((splitOn (str "\n") (strip block)).headD [])
           emails := partsLoop ((splitOn (str "---\n") block).drop 1) }

/-- `RequirementAgent.parse_email_file` on the file's content: split on the
thread delimiter, drop the segment before the first delimiter, and collect
the blocks that produce a thread. -/
def parseEmailFile (content : Str) : List Thread :=
  ((splitOn (str "THREAD_ID: ") content).drop 1).filterMap parseBlock

/-- The keyword vocabulary of
`RequirementAgent.is_requirement_thread_keyword`. -/
def requirementKeywords : List Str :=
  [str "requirement", str "need", str "feature", str "functionality",
   str "system", str "integration", str "users", str "deployment",
   str "timeline", str "alert", str "notification", str "access",
   str "permission", str "tracking", str "audit", str "compliance",
   str "dashboard", str "report", str "api", str "database",
   str "authentication", str "security", str "performance",
   str "scalability", str "interface", str "workflow"]

/-- `RequirementAgent.is_requirement_thread_keyword`: true iff some email's
lower-cased `subject + " " + body` (missing fields default to the empty
string) contains some vocabulary keyword as a substring. -/
def isRequirementThreadKeyword (t : Thread) : Bool :=
  t.emails.any fun e =>
    let text := toLower ((e.subject.getD []) ++ [' '] ++ (e.body.getD []))
    requirementKeywords.any fun k => containsSub k text

/-- Outcome of a call that may raise: `.ok v` is a normal return of `v`,
`.error ()` means the call raised an exception. -/
abbrev CallOutcome (α : Type) := Except Unit α

/-- `AIEmailProcessor.classify_email_thread`, as a function of the outcome of
the external chat-completions call it wraps: the `try` block strips and
lower-cases the returned content and normalizes anything outside the two
labels to `'general'`; the `except` block catches every exception of the call
and returns `'general'`. -/
def classifyEmailThread (apiCall : CallOutcome Str) : Str :=
  match apiCall with
  | .error _ => str "general"
  | .ok content =>
    let classification := toLower (strip content)
    if classification = str "requirement" || classification = str "general"
    then classification
    else str "general"

/-- A requirement item, a tagged variant discriminated by its
`extraction_method`: the AI shape
`{extracted_requirements, extraction_method: 'AI', model_used}` or the
keyword shape `{text, from, date, extraction_method: 'keyword'}` (the latter
two values come from `dict.get` without default, hence may be `None`). -/
inductive RequirementItem where
  | ai (extracted_requirements : Str) (model_used : Str)
  | keyword (text : Str) (from_ : Option Str) (date : Option Str)
deriving DecidableEq

/-- The `extraction_method` discriminant of a requirement item. -/
def RequirementItem.extraction_method : RequirementItem → Str
  | .ai _ _ => str "AI"
  | .keyword _ _ _ => str "keyword"

/-- `AIEmailProcessor.extract_requirements`, as a function of the outcome of
the external chat-completions call: on success the stripped response text is
wrapped as a single AI-shaped item; the `except` block catches every
exception of the call and returns the empty list. -/
def aiExtractRequirements (apiCall : CallOutcome Str) (model : Str) :
    List RequirementItem :=
  match apiCall with
  | .error _ => []
  | .ok content => [.ai (strip content) model]

/-- The external AI processor as seen by `RequirementAgent`: per thread, the
outcome of the statement `self.ai_processor.classify_email_thread(thread)`
and of `self.ai_processor.extract_requirements(thread)` (`.error ()` when the
statement itself raises out of the processor). -/
structure AIEnv where
  classifyCall : Thread → CallOutcome Str
  extractCall : Thread → CallOutcome (List RequirementItem)

/-- `RequirementAgent.classify_thread`: in AI mode return what the processor
call returns, falling back to the keyword heuristic only when that call
raises; in keyword mode use the heuristic directly. -/
def classifyThread (use_ai : Bool) (env : AIEnv) (t : Thread) : Str :=
  if use_ai then
    match env.classifyCall t with
    | .ok category => category
    | .error _ =>
      if isRequirementThreadKeyword t then str "requirement" else str "general"
  else
    if isRequirementThreadKeyword t then str "requirement" else str "general"

/-- `RequirementAgent._extract_requirements_basic`: one keyword-shaped item
per email whose lower-cased body contains one of the four trigger words. -/
def extractRequirementsBasic (t : Thread) : List RequirementItem :=
  t.emails.filterMap fun e =>
    let body := e.body.getD []
    if [str "need", str "require", str "should", str "must"].any
        (fun k => containsSub k (toLower body))
    then some (.keyword body e.from_ e.date)
    else none

/-- `RequirementAgent.extract_requirements`: in AI mode return what the
processor call returns, falling back to the basic extraction only when that
call raises; in keyword mode use the basic extraction directly. -/
def extractRequirements (use_ai : Bool) (env : AIEnv) (t : Thread) :
    List RequirementItem :=
  if use_ai then
    match env.extractCall t with
    | .ok items => items
    | .error _ => extractRequirementsBasic t
  else
    extractRequirementsBasic t

/-- A document of the `requirement_emails` collection, as assembled by
`RequirementAgent.store_requirement_thread` (the `metadata` sub-dict is
flattened into the four fields it holds; `created_at` is the write
timestamp). -/
structure StoredDocument where
  thread_id : Str
  category : Str
  emails : List EmailData
  email_count : Nat
  requirements : List RequirementItem
  meta_client : Option Str
  meta_subject : Option Str
  meta_first_date : Option Str
  meta_last_date : Option Str
  created_at : Nat
  classification_method : Str
deriving DecidableEq

/-- The document literal of `store_requirement_thread` (lines 156-170 of
`requirement_agent.py`) for a thread, given the mode flag, the AI
environment, and the current time. -/
def mkDocument (use_ai : Bool) (env : AIEnv) (now : Nat) (t : Thread) :
    StoredDocument :=
  { thread_id := t.thread_id
    category := str "requirement"
    emails := t.emails
    email_count := t.emails.length
    requirements := extractRequirements use_ai env t
    meta_client := t.emails.head?.bind (fun e => e.from_)
    meta_subject := t.emails.head?.bind (fun e => e.subject)
    meta_first_date := t.emails.head?.bind (fun e => e.date)
    meta_last_date := t.emails.getLast?.bind (fun e => e.date)
    created_at := now
    classification_method := if use_ai then str "AI" else str "keyword" }

/-- The collection state: the stored documents in insertion order. -/
abbrev Store := List StoredDocument

/-- `update_one({'thread_id': tid}, {'$set': document}, upsert=True)`:
replace the first document matching the key, or append when no document
matches; the boolean reports whether a new document was inserted (a non-null
`upserted_id`). -/
def upsertDoc (store : Store) (tid : Str) (doc : StoredDocument) :
    Store × Bool :=
  match store with
  | [] => ([doc], true)
  | d :: ds =>
    if d.thread_id = tid then (doc :: ds, false)
    else
      let res := upsertDoc ds tid doc
      (d :: res.1, res.2)

/-- `RequirementAgent.store_requirement_thread`: classify; unless the result
is `'requirement'`, return `False` with the store untouched; otherwise
extract, assemble the document, upsert it by `thread_id`, and return
`True`. -/
def storeRequirementThread (use_ai : Bool) (env : AIEnv) (now : Nat)
    (store : Store) (t : Thread) : Store × Bool :=
  if classifyThread use_ai env t ≠ str "requirement" then (store, false)
  else
    ((upsertDoc store t.thread_id (mkDocument use_ai env now t)).1, true)

/-- The per-thread loop of `RequirementAgent.process_all_requirements`:
process the threads in order, threading the store and counting the threads
for which `store_requirement_thread` returned `True`. -/
def processThreads (use_ai : Bool) (env : AIEnv) (now : Nat) :
    Store → List Thread → Store × Nat
  | store, [] => (store, 0)
  | store, t :: ts =>
    let step := storeRequirementThread use_ai env now store t
    let rest := processThreads use_ai env now step.1 ts
    (rest.1, (if step.2 then 1 else 0) + rest.2)

/-- The counts reported at the end of `process_all_requirements`: total
threads found, requirement threads stored, non-requirement threads
skipped. -/
structure RunSummary where
  total : Nat
  stored : Nat
  skipped : Nat
deriving DecidableEq

/-- `RequirementAgent.process_all_requirements` on the file content: parse,
process every thread in order, and report the summary counts. -/
def processAllRequirements (use_ai : Bool) (env : AIEnv) (now : Nat)
    (store : Store) (content : Str) : Store × RunSummary :=
  let threads := parseEmailFile content
  let res := processThreads use_ai env now store threads
  (res.1, { total := threads.length, stored := res.2,
            skipped := threads.length - res.2 })

/-- The `self.use_ai` flag after `RequirementAgent.__init__(use_ai)`, given
whether the `AIEmailProcessor()` construction raises: the flag is set to the
argument, and the `except` branch of the construction attempt (taken only in
AI mode) resets it to `False`. -/
def agentInitUseAI (use_ai : Bool) (aiInitRaises : Bool) : Bool :=
  if use_ai then (if aiInitRaises then false else use_ai) else use_ai

/-! Concrete data used by witnesses and counterexamples: the two-thread input
file of the end-to-end scenario, the parsed records it produces, and two AI
environments (one whose delegated calls execute normally over a failing
collaborator, one whose delegated calls themselves raise). -/

/-- The scenario input file: `THREAD-A` with one email whose body is
`Please add SSO authentication support`, `THREAD-B` with one email whose body
is `Happy holidays everyone!`. -/
def sampleFile : Str :=
  str "THREAD_ID: THREAD-A\n---\nFrom: alice@example.com\nTo: bob@example.com\nDate: 2024-01-01\nSubject: SSO\nPlease add SSO authentication support\n---\nTHREAD_ID: THREAD-B\n---\nFrom: carol@example.com\nTo: dan@example.com\nDate: 2024-01-02\nSubject: Greetings\nHappy holidays everyone!\n---\n"

/-- The single email of `THREAD-A` as parsed from `sampleFile`. -/
def emailA : EmailData :=
  { from_ := some (str "alice@example.com"), to_ := some (str "bob@example.com")
    date := some (str "2024-01-01"), subject := some (str "SSO")
    body := some (str "Please add SSO authentication support") }

/-- The single email of `THREAD-B` as parsed from `sampleFile`. -/
def emailB : EmailData :=
  { from_ := some (str "carol@example.com"), to_ := some (str "dan@example.com")
    date := some (str "2024-01-02"), subject := some (str "Greetings")
    body := some (str "Happy holidays everyone!") }

/-- The first thread of `sampleFile`. -/
def threadA : Thread := { thread_id := str "THREAD-A", emails := [emailA] }

/-- The second thread of `sampleFile`. -/
def threadB : Thread := { thread_id := str "THREAD-B", emails := [emailB] }

/-- A thread whose only email body triggers the basic extraction. -/
def threadNeed : Thread :=
  { thread_id := str "T-NEED"
    emails := [{ from_ := some (str "carol@example.com"), to_ := none
                 date := some (str "2024-02-02"), subject := none
                 body := some (str "We need a dashboard for tracking.") }] }

/-- The AI processor running normally over a failing collaborator: the
chat-completions call inside each processor method raises, the processor
methods catch it and return normally, so the statements
`self.ai_processor.classify_email_thread(thread)` and
`self.ai_processor.extract_requirements(thread)` do not raise. -/
def envAPIFail : AIEnv :=
  { classifyCall := fun _ => .ok (classifyEmailThread (.error ()))
    extractCall := fun _ => .ok (aiExtractRequirements (.error ()) (str "gpt-4")) }

/-- An AI processor whose method calls themselves raise on every thread. -/
def envRaise : AIEnv :=
  { classifyCall := fun _ => .error (), extractCall := fun _ => .error () }

/-! Machinery for the idempotence of the run: the per-thread loop is an
ordered sequence of keyed upserts, and a second run over the same content
re-issues the same upserts with a new timestamp. -/

/-- The `thread_id` column of the collection. -/
def storeKeys (s : Store) : List Str := s.map (fun d => d.thread_id)

/-- Sequential application of keyed upserts. -/
def applyOps (store : Store) : List (Str × StoredDocument) → Store
  | [] => store
  | op :: ops => applyOps (upsertDoc store op.1 op.2).1 ops

/-- The sequence of upserts a run performs: one per thread classified
`'requirement'`, in thread order, carrying the document assembled at the
run's timestamp. -/
def reqOps (use_ai : Bool) (env : AIEnv) (now : Nat) :
    List Thread → List (Str × StoredDocument)
  | [] => []
  | t :: ts =>
    if classifyThread use_ai env t = str "requirement" then
      (t.thread_id, mkDocument use_ai env now t) :: reqOps use_ai env now ts
    else
      reqOps use_ai env now ts

/-- The last document an op sequence assigns to a key, if any. -/
def lastDocFor (k : Str) : List (Str × StoredDocument) → Option StoredDocument
  | [] => none
  | op :: ops =>
    match lastDocFor k ops with
    | some d => some d
    | none => if op.1 = k then some op.2 else none

/-- The document a store entry ends up as after an op sequence touches (or
does not touch) its key. -/
def finalDoc (ops : List (Str × StoredDocument)) (d : StoredDocument) :
    StoredDocument :=
  (lastDocFor d.thread_id ops).getD d

/-- The same document re-stamped at a later write time. -/
def bumpTime (now : Nat) (d : StoredDocument) : StoredDocument :=
  { d with created_at := now }

/-! A declarative reformulation of `_parse_single_email`, used to state the
amended C4: each header field holds the transform of the last line carrying
its token, and the body is built from the lines after the first `Subject:`
line. -/

/-- The four header tokens of the scanning loop. -/
def fieldTokens : List Str :=
  [str "From:", str "To:", str "Date:", str "Subject:"]

/-- Whether a line starts with one of the four header tokens. -/
def startsFieldToken (l : Str) : Bool :=
  fieldTokens.any (fun p => p.isPrefixOf l)

/-- The value a header field holds after scanning `ls`, starting from `acc`:
the last line starting with the token, with every occurrence of the token
removed and the result trimmed — `none` (no such key) if no line carries the
token. -/
def updLast (pre : Str) (acc : Option Str) (ls : List Str) : Option Str :=
  ls.foldl
    (fun a l =>
      if pre.isPrefixOf l then some (strip (preplace l pre [])) else a)
    acc

/-- The body lines contributed by `ls` while the body-reading flag is on:
the lines that start with no header token and whose trimmed form is not the
separator `---`, each individually trimmed, in order. -/
def collectAll (ls : List Str) : List Str :=
  (ls.filter
    (fun l => !startsFieldToken l && !(strip l = str "---" : Bool))).map strip

/-- The body lines contributed by `ls` while the body-reading flag starts
off: only lines strictly after the first `Subject:`-prefixed line
contribute. -/
def collectAfter (ls : List Str) : List Str :=
  collectAll
    ((ls.dropWhile (fun l => !(str "Subject:").isPrefixOf l)).drop 1)

/-- The amended specification of `_parse_single_email`: over the non-blank
lines of the segment, each of the four header fields holds the last line
carrying its token with every occurrence of the token removed and the result
trimmed; the body is the newline-join of the individually trimmed lines
after the first `Subject:` line that carry no header token and whose trimmed
form is not `---`. -/
def specParseSingleEmailAmended (emailText : Str) : EmailData :=
  { from_ := updLast (str "From:") none (nonblankLines emailText)
    to_ := updLast (str "To:") none (nonblankLines emailText)
    date := updLast (str "Date:") none (nonblankLines emailText)
    subject := updLast (str "Subject:") none (nonblankLines emailText)
    body := some (List.intercalate (str "\n")
      (collectAfter (nonblankLines emailText))) }

/-! Helper lemmas about the parsing loops. -/

/-- The dict returned by `_parse_single_email` always carries the `body`
key (the assignment on line 79 is unconditional). -/
theorem parseSingleEmail_body_isSome (seg : Str) :
    ((parseSingleEmail seg).body).isSome = true := by
  simp [parseSingleEmail]

/-- The dict returned by `_parse_single_email` is always truthy (it has at
least the `body` key). -/
theorem parseSingleEmail_truthy (seg : Str) :
    (parseSingleEmail seg).isTruthy = true := by
  simp [EmailData.isTruthy, parseSingleEmail]

/-- The segment loop of `parse_email_file` keeps exactly the non-blank
segments. -/
theorem partsLoop_length (parts : List Str) :
    (partsLoop parts).length =
      (parts.filter (fun p => !(strip p).isEmpty)).length := by
  induction parts with
  | nil => rfl
  | cons p ps ih =>
    by_cases h : (strip p).isEmpty = true
    · simp [partsLoop, h, ih]
    · simp [partsLoop, h, parseSingleEmail_truthy, ih]

/-- The line-scanning loop leaves the dict, the body lines and the flag
untouched on lines that match no header token, while `parsing_body` is
false. -/
theorem parseLinesLoop_skip (ls : List Str) (d : EmailData) (bl : List Str)
    (h : ∀ l ∈ ls, (str "From:").isPrefixOf l = false ∧
      (str "To:").isPrefixOf l = false ∧
      (str "Date:").isPrefixOf l = false ∧
      (str "Subject:").isPrefixOf l = false) :
    parseLinesLoop ls d bl false = (d, bl) := by
  induction ls with
  | nil => rfl
  | cons l ls ih =>
    obtain ⟨h1, h2, h3, h4⟩ := h l (List.mem_cons_self l ls)
    simp only [parseLinesLoop, h1, h2, h3, h4, Bool.false_eq_true, if_false,
      Bool.false_and]
    exact ih (fun x hx => h x (List.mem_cons_of_mem l hx))

/-- Unfolding of `storeKeys` on a cons cell. -/
@[simp] theorem storeKeys_cons (a : StoredDocument) (as : Store) :
    storeKeys (a :: as) = a.thread_id :: storeKeys as := rfl

/-- Unfolding of `storeKeys` on the empty store. -/
@[simp] theorem storeKeys_nil : storeKeys [] = [] := rfl

/-- The store threaded through the per-thread loop is the sequential
application of one upsert per requirement-classified thread. -/
theorem processThreads_store_eq (use_ai : Bool) (env : AIEnv) (now : Nat)
    (store : Store) (ts : List Thread) :
    (processThreads use_ai env now store ts).1 =
      applyOps store (reqOps use_ai env now ts) := by
  induction ts generalizing store with
  | nil => rfl
  | cons t ts ih =>
    by_cases h : classifyThread use_ai env t = str "requirement"
    · simp [processThreads, storeRequirementThread, h, reqOps, applyOps, ih]
    · simp [processThreads, storeRequirementThread, h, reqOps, applyOps, ih]

/-- Upserting preserves the key column when the key is present, and appends
the key when it is not. -/
theorem upsertDoc_keys (store : Store) (tid : Str) (doc : StoredDocument)
    (hdoc : doc.thread_id = tid) :
    storeKeys (upsertDoc store tid doc).1 =
      if tid ∈ storeKeys store then storeKeys store
      else storeKeys store ++ [tid] := by
  induction store with
  | nil => simp [upsertDoc, hdoc]
  | cons d ds ih =>
    by_cases h : d.thread_id = tid
    · simp [upsertDoc, h, hdoc]
    · have h2 : ¬ tid = d.thread_id := fun hh => h hh.symm
      by_cases hm : tid ∈ storeKeys ds
      · simp [upsertDoc, h, h2, hm, ih]
      · simp [upsertDoc, h, h2, hm, ih]

/-- Upserting preserves distinctness of the key column. -/
theorem upsertDoc_nodup (store : Store) (tid : Str) (doc : StoredDocument)
    (hdoc : doc.thread_id = tid) (h : (storeKeys store).Nodup) :
    (storeKeys (upsertDoc store tid doc).1).Nodup := by
  rw [upsertDoc_keys store tid doc hdoc]
  by_cases hm : tid ∈ storeKeys store
  · simp [hm, h]
  · simp [hm, h, List.nodup_append]

/-- Keys present before an upsert are present after it. -/
theorem mem_storeKeys_upsert (store : Store) (tid k : Str)
    (doc : StoredDocument) (hdoc : doc.thread_id = tid)
    (h : k ∈ storeKeys store) :
    k ∈ storeKeys (upsertDoc store tid doc).1 := by
  rw [upsertDoc_keys store tid doc hdoc]
  by_cases hm : tid ∈ storeKeys store
  · simpa [hm] using h
  · simp [hm, h]

/-- The upserted key is present after the upsert. -/
theorem self_mem_storeKeys_upsert (store : Store) (tid : Str)
    (doc : StoredDocument) (hdoc : doc.thread_id = tid) :
    tid ∈ storeKeys (upsertDoc store tid doc).1 := by
  rw [upsertDoc_keys store tid doc hdoc]
  by_cases hm : tid ∈ storeKeys store
  · simp [hm]
  · simp [hm]

/-- Applying ops whose documents carry their own key preserves distinctness
of the key column. -/
theorem applyOps_nodup (ops : List (Str × StoredDocument)) (store : Store)
    (hops : ∀ p ∈ ops, (p.2).thread_id = p.1)
    (h : (storeKeys store).Nodup) :
    (storeKeys (applyOps store ops)).Nodup := by
  induction ops generalizing store with
  | nil => exact h
  | cons op ops ih =>
    simp only [applyOps]
    exact ih _ (fun p hp => hops p (List.mem_cons_of_mem _ hp))
      (upsertDoc_nodup _ _ _ (hops op (List.mem_cons_self _ _)) h)

/-- Keys present in the store stay present through an op sequence. -/
theorem mem_storeKeys_applyOps_of_mem (ops : List (Str × StoredDocument))
    (store : Store) (k : Str)
    (hops : ∀ p ∈ ops, (p.2).thread_id = p.1)
    (h : k ∈ storeKeys store) : k ∈ storeKeys (applyOps store ops) := by
  induction ops generalizing store with
  | nil => exact h
  | cons op ops ih =>
    simp only [applyOps]
    exact ih _ (fun p hp => hops p (List.mem_cons_of_mem _ hp))
      (mem_storeKeys_upsert _ _ _ _ (hops op (List.mem_cons_self _ _)) h)

/-- Every key an op sequence touches is present afterwards. -/
theorem mem_storeKeys_applyOps (ops : List (Str × StoredDocument))
    (store : Store) (k : Str)
    (hops : ∀ p ∈ ops, (p.2).thread_id = p.1)
    (h : k ∈ ops.map Prod.fst) : k ∈ storeKeys (applyOps store ops) := by
  induction ops generalizing store with
  | nil => simp at h
  | cons op ops ih =>
    simp only [applyOps]
    rw [List.map_cons] at h
    rcases List.mem_cons.mp h with h1 | h1
    · rw [h1]
      exact mem_storeKeys_applyOps_of_mem ops _ op.1
        (fun p hp => hops p (List.mem_cons_of_mem _ hp))
        (self_mem_storeKeys_upsert _ _ _
          (hops op (List.mem_cons_self _ _)))
    · exact ih _ (fun p hp => hops p (List.mem_cons_of_mem _ hp)) h1

/-- With distinct keys, a member of the upserted store is either the new
document or an untouched old document with a different key. -/
theorem mem_upsert_elim (store : Store) (tid : Str)
    (doc d : StoredDocument) (hnd : (storeKeys store).Nodup)
    (h : d ∈ (upsertDoc store tid doc).1) :
    d = doc ∨ (d ∈ store ∧ d.thread_id ≠ tid) := by
  induction store with
  | nil =>
    simp [upsertDoc] at h
    exact Or.inl h
  | cons a as ih =>
    have hnd1 : a.thread_id ∉ storeKeys as := (List.nodup_cons.mp hnd).1
    have hnd2 : (storeKeys as).Nodup := (List.nodup_cons.mp hnd).2
    by_cases ha : a.thread_id = tid
    · simp only [upsertDoc, ha, if_pos rfl] at h
      rcases List.mem_cons.mp h with h1 | h1
      · exact Or.inl h1
      · refine Or.inr ⟨List.mem_cons_of_mem _ h1, fun hdt => ?_⟩
        exact hnd1 (ha ▸ hdt ▸ List.mem_map_of_mem _ h1)
    · simp only [upsertDoc, ha, if_neg ha] at h
      rcases List.mem_cons.mp h with h1 | h1
      · exact Or.inr ⟨h1 ▸ List.mem_cons_self _ _, h1 ▸ ha⟩
      · rcases ih hnd2 h1 with h2 | ⟨h3, h4⟩
        · exact Or.inl h2
        · exact Or.inr ⟨List.mem_cons_of_mem _ h3, h4⟩

/-- Looking up a key through a cons whose op has a different key. -/
theorem lastDocFor_cons_ne (k kq : Str) (e : StoredDocument)
    (rest : List (Str × StoredDocument)) (h : ¬ k = kq) :
    lastDocFor kq ((k, e) :: rest) = lastDocFor kq rest := by
  simp only [lastDocFor]
  cases lastDocFor kq rest <;> simp [h]

/-- Looking up a key through a cons whose op carries that key. -/
theorem lastDocFor_cons_self (k : Str) (e : StoredDocument)
    (rest : List (Str × StoredDocument)) :
    lastDocFor k ((k, e) :: rest) = some ((lastDocFor k rest).getD e) := by
  simp only [lastDocFor]
  cases lastDocFor k rest <;> simp

/-- Starting from a distinct-key store, every member of the result of an op
sequence is either the last document the ops assigned to its key, or an
untouched original whose key the ops never assigned. -/
theorem applyOps_mem_lastDocFor (ops : List (Str × StoredDocument))
    (store : Store) (d : StoredDocument)
    (hops : ∀ p ∈ ops, (p.2).thread_id = p.1)
    (hnd : (storeKeys store).Nodup) (h : d ∈ applyOps store ops) :
    lastDocFor d.thread_id ops = some d ∨
      (d ∈ store ∧ lastDocFor d.thread_id ops = none) := by
  induction ops generalizing store with
  | nil => exact Or.inr ⟨h, rfl⟩
  | cons op ops ih =>
    obtain ⟨k, e⟩ := op
    have hek : e.thread_id = k := hops (k, e) (List.mem_cons_self _ _)
    simp only [applyOps] at h
    rcases ih (upsertDoc store k e).1
        (fun p hp => hops p (List.mem_cons_of_mem _ hp))
        (upsertDoc_nodup store k e hek hnd) h with h1 | ⟨hmem, hnone⟩
    · left
      simp only [lastDocFor, h1]
    · rcases mem_upsert_elim store k e d hnd hmem with h2 | ⟨h3, h4⟩
      · subst h2
        left
        rw [hek] at hnone
        rw [hek, lastDocFor_cons_self, hnone]
        rfl
      · have h4s : ¬ k = d.thread_id := fun hh => h4 hh.symm
        exact Or.inr ⟨h3, by rw [lastDocFor_cons_ne _ _ _ _ h4s, hnone]⟩

/-- Upserting a present key and then applying further ops is the same as
mapping the final-document function over the original store with the upsert
prepended to the ops. -/
theorem upsert_map_final (store : Store) (k : Str) (e : StoredDocument)
    (rest : List (Str × StoredDocument)) (he : e.thread_id = k)
    (hk : k ∈ storeKeys store) (hnd : (storeKeys store).Nodup) :
    (upsertDoc store k e).1.map (finalDoc rest) =
      store.map (finalDoc ((k, e) :: rest)) := by
  induction store with
  | nil => simp at hk
  | cons a as ih =>
    have hnd1 : a.thread_id ∉ storeKeys as := (List.nodup_cons.mp hnd).1
    have hnd2 : (storeKeys as).Nodup := (List.nodup_cons.mp hnd).2
    by_cases ha : a.thread_id = k
    · have hstep : (upsertDoc (a :: as) k e).1 = e :: as := by
        simp [upsertDoc, ha]
      rw [hstep, List.map_cons, List.map_cons, List.cons.injEq]
      constructor
      · simp only [finalDoc, he, ha, lastDocFor_cons_self]
        cases lastDocFor k rest <;> rfl
      · apply List.map_congr_left
        intro x hx
        have hxk : ¬ k = x.thread_id := by
          intro hh
          exact hnd1 (by rw [ha, hh]; exact List.mem_map_of_mem _ hx)
        simp only [finalDoc, lastDocFor_cons_ne _ _ _ _ hxk]
    · have hkas : k ∈ storeKeys as := by
        rcases List.mem_cons.mp hk with h1 | h1
        · exact absurd h1.symm ha
        · exact h1
      have hstep : (upsertDoc (a :: as) k e).1 = a :: (upsertDoc as k e).1 := by
        simp [upsertDoc, ha]
      rw [hstep, List.map_cons, List.map_cons, List.cons.injEq]
      constructor
      · have hak : ¬ k = a.thread_id := fun hh => ha hh.symm
        simp only [finalDoc, lastDocFor_cons_ne _ _ _ _ hak]
      · exact ih hkas hnd2

/-- When every op key is already present in a distinct-key store, applying
the ops rewrites each document in place to its final version. -/
theorem applyOps_inplace (ops : List (Str × StoredDocument)) (store : Store)
    (hops : ∀ p ∈ ops, (p.2).thread_id = p.1)
    (hsub : ∀ p ∈ ops, p.1 ∈ storeKeys store)
    (hnd : (storeKeys store).Nodup) :
    applyOps store ops = store.map (finalDoc ops) := by
  induction ops generalizing store with
  | nil =>
    simp only [applyOps]
    have : ∀ d ∈ store, finalDoc [] d = d := by
      intro d _
      rfl
    rw [List.map_congr_left this, List.map_id']
  | cons op ops ih =>
    obtain ⟨k, e⟩ := op
    have hek : e.thread_id = k := hops (k, e) (List.mem_cons_self _ _)
    have hkin : k ∈ storeKeys store := hsub (k, e) (List.mem_cons_self _ _)
    simp only [applyOps]
    rw [ih (upsertDoc store k e).1
      (fun p hp => hops p (List.mem_cons_of_mem _ hp))
      (fun p hp => mem_storeKeys_upsert store k p.1 e hek
        (hsub p (List.mem_cons_of_mem _ hp)))
      (upsertDoc_nodup store k e hek hnd)]
    exact upsert_map_final store k e ops hek hkin hnd

/-- Every op in a run's op sequence carries its own thread id as key. -/
theorem reqOps_hops (use_ai : Bool) (env : AIEnv) (now : Nat)
    (ts : List Thread) :
    ∀ p ∈ reqOps use_ai env now ts, (p.2).thread_id = p.1 := by
  induction ts with
  | nil => simp [reqOps]
  | cons t ts ih =>
    intro p hp
    by_cases h : classifyThread use_ai env t = str "requirement"
    · simp only [reqOps, h, if_pos] at hp
      rcases List.mem_cons.mp hp with h1 | h1
      · rw [h1]
        rfl
      · exact ih p h1
    · simp only [reqOps, h, if_neg h] at hp
      exact ih p hp

/-- The keys of a run's op sequence do not depend on the timestamp. -/
theorem reqOps_keys_time (use_ai : Bool) (env : AIEnv) (now₁ now₂ : Nat)
    (ts : List Thread) :
    (reqOps use_ai env now₂ ts).map Prod.fst =
      (reqOps use_ai env now₁ ts).map Prod.fst := by
  induction ts with
  | nil => rfl
  | cons t ts ih =>
    by_cases h : classifyThread use_ai env t = str "requirement"
    · simp [reqOps, h, ih]
    · simp [reqOps, h, ih]

/-- The op sequences of two runs over the same threads agree pointwise up to
the timestamp of the carried document. -/
theorem reqOps_rel (use_ai : Bool) (env : AIEnv) (now₁ now₂ : Nat)
    (ts : List Thread) :
    List.Forall₂ (fun p q => p.1 = q.1 ∧ q.2 = bumpTime now₂ p.2)
      (reqOps use_ai env now₁ ts) (reqOps use_ai env now₂ ts) := by
  induction ts with
  | nil => exact List.Forall₂.nil
  | cons t ts ih =>
    by_cases h : classifyThread use_ai env t = str "requirement"
    · simp only [reqOps, h, if_pos]
      exact List.Forall₂.cons ⟨rfl, rfl⟩ ih
    · simp only [reqOps, h, if_neg h]
      exact ih

/-- Transport of key lookup along pointwise-related op sequences. -/
theorem lastDocFor_rel (now₂ : Nat) (k : Str)
    (opsA opsB : List (Str × StoredDocument))
    (h : List.Forall₂ (fun p q => p.1 = q.1 ∧ q.2 = bumpTime now₂ p.2)
      opsA opsB) :
    lastDocFor k opsB = (lastDocFor k opsA).map (bumpTime now₂) := by
  induction h with
  | nil => rfl
  | @cons a b tlA tlB hab hrest ih =>
    obtain ⟨hk, hd⟩ := hab
    simp only [lastDocFor, ih]
    cases hX : lastDocFor k tlA with
    | some d0 => rfl
    | none =>
      simp only [Option.map_none']
      rw [← hk]
      by_cases hc : a.1 = k
      · simp [hc, hd]
      · simp [hc]

/-- Pointwise re-stamped stores have the same key column. -/
theorem storeKeys_of_rel (now₂ : Nat) (sA sB : Store)
    (h : List.Forall₂ (fun dA dB => dB = bumpTime now₂ dA) sA sB) :
    storeKeys sB = storeKeys sA := by
  induction h with
  | nil => rfl
  | @cons a b tlA tlB hab hrest ih =>
    rw [storeKeys_cons, storeKeys_cons, ih, hab]
    rfl

/-- A list is pointwise related to its image under a map agreeing with the
relation on its members. -/
theorem forall₂_map_self {α : Type} (R : α → α → Prop) (f : α → α)
    (l : List α) (h : ∀ d ∈ l, R d (f d)) : List.Forall₂ R l (l.map f) := by
  induction l with
  | nil => exact List.Forall₂.nil
  | cons a t ih =>
    exact List.Forall₂.cons (h a (List.mem_cons_self _ _))
      (ih (fun d hd => h d (List.mem_cons_of_mem _ hd)))

/-- A nonempty pattern that is a prefix of `l` determines the head of
`l`. -/
theorem head_eq_of_pre (p l : Str) (hp : p ≠ []) (h : p <+: l) :
    l.head? = p.head? := by
  obtain ⟨t, rfl⟩ := h
  cases p with
  | nil => exact absurd rfl hp
  | cons c cs => rfl

/-- Two nonempty tokens with different heads cannot both be prefixes of the
same line. -/
theorem other_token_not_pre (p q l : Str) (hp : p ≠ []) (hq : q ≠ [])
    (hne : p.head? ≠ q.head?) (h : p <+: l) : ¬ q <+: l := fun hc =>
  hne ((head_eq_of_pre p l hp h).symm.trans (head_eq_of_pre q l hq hc))

/-- Boolean form of a refuted prefix relation. -/
theorem isPrefixOf_eq_false_of_not_pre (p l : Str) (h : ¬ p <+: l) :
    p.isPrefixOf l = false := by
  rw [← Bool.not_eq_true, List.isPrefixOf_iff_prefix]
  exact h

/-- Characterization of the scanning loop of `_parse_single_email`: the four
header fields are updated to the last matching line's transform, the flag
and dict interplay reduces to collecting body lines from the whole list when
the flag is on, and from the suffix after the first `Subject:` line when it
is off. -/
theorem parseLinesLoop_eq (ls : List Str) (d : EmailData) (bl : List Str)
    (pb : Bool) :
    parseLinesLoop ls d bl pb =
      ({ from_ := updLast (str "From:") d.from_ ls
         to_ := updLast (str "To:") d.to_ ls
         date := updLast (str "Date:") d.date ls
         subject := updLast (str "Subject:") d.subject ls
         body := d.body },
       bl ++ (if pb then collectAll ls else collectAfter ls)) := by
  induction ls generalizing d bl pb with
  | nil => simp [parseLinesLoop, updLast, collectAll, collectAfter]
  | cons l ls ih =>
    by_cases hF : str "From:" <+: l
    · have hT := other_token_not_pre _ (str "To:") l
        (by decide) (by decide) (by decide) hF
      have hD := other_token_not_pre _ (str "Date:") l
        (by decide) (by decide) (by decide) hF
      have hS := other_token_not_pre _ (str "Subject:") l
        (by decide) (by decide) (by decide) hF
      have hA : startsFieldToken l = true := by
        simp [startsFieldToken, fieldTokens, hF]
      have hS0 := isPrefixOf_eq_false_of_not_pre _ l hS
      simp [hS0, parseLinesLoop, hF, hT, hD, hS, hA, ih, updLast, collectAll,
        collectAfter, List.dropWhile_cons]
    · by_cases hT : str "To:" <+: l
      · have hD := other_token_not_pre _ (str "Date:") l
          (by decide) (by decide) (by decide) hT
        have hS := other_token_not_pre _ (str "Subject:") l
          (by decide) (by decide) (by decide) hT
        have hA : startsFieldToken l = true := by
          simp [startsFieldToken, fieldTokens, hT]
        have hS0 := isPrefixOf_eq_false_of_not_pre _ l hS
        simp [hS0, parseLinesLoop, hF, hT, hD, hS, hA, ih, updLast, collectAll,
          collectAfter, List.dropWhile_cons]
      · by_cases hD : str "Date:" <+: l
        · have hS := other_token_not_pre _ (str "Subject:") l
            (by decide) (by decide) (by decide) hD
          have hA : startsFieldToken l = true := by
            simp [startsFieldToken, fieldTokens, hD]
          have hS0 := isPrefixOf_eq_false_of_not_pre _ l hS
          simp [hS0, parseLinesLoop, hF, hT, hD, hS, hA, ih, updLast, collectAll,
            collectAfter, List.dropWhile_cons]
        · by_cases hS : str "Subject:" <+: l
          · have hA : startsFieldToken l = true := by
              simp [startsFieldToken, fieldTokens, hS]
            have hS0 : (str "Subject:").isPrefixOf l = true := by
              simp [List.isPrefixOf_iff_prefix, hS]
            simp [hS0, parseLinesLoop, hF, hT, hD, hS, hA, ih, updLast,
              collectAll, collectAfter, List.dropWhile_cons]
          · have hF0 := isPrefixOf_eq_false_of_not_pre _ l hF
            have hT0 := isPrefixOf_eq_false_of_not_pre _ l hT
            have hD0 := isPrefixOf_eq_false_of_not_pre _ l hD
            have hS0 := isPrefixOf_eq_false_of_not_pre _ l hS
            have hA : startsFieldToken l = false := by
              simp [startsFieldToken, fieldTokens, hF0, hT0, hD0, hS0]
            by_cases hsep : strip l = str "---"
            · simp [hS0, parseLinesLoop, hF, hT, hD, hS, hA, hsep, ih, updLast,
                collectAll, collectAfter, List.dropWhile_cons]
            · cases pb with
              | true =>
                simp [hS0, parseLinesLoop, hF, hT, hD, hS, hA, hsep, ih, updLast,
                  collectAll, collectAfter, List.dropWhile_cons]
              | false =>
                simp [hS0, parseLinesLoop, hF, hT, hD, hS, hA, hsep, ih, updLast,
                  collectAll, collectAfter, List.dropWhile_cons]

/-! Claims. -/

/-- C1, counterexample: when the delegated collaborator call fails (the
chat-completions call raises and `classify_email_thread` catches it),
`classify_thread` on `threadA` returns the fixed label `'general'`, although
the local keyword heuristic classifies the thread `'requirement'` — refuting
the claim that a failing delegated classification call makes
`classify_thread` return the heuristic's result rather than a fixed default
label. -/
theorem C1_counterexample :
    classifyThread true envAPIFail threadA = str "general" ∧
    isRequirementThreadKeyword threadA = true ∧
    classifyThread true envAPIFail threadA ≠
      (if isRequirementThreadKeyword threadA then str "requirement"
       else str "general") := by
  decide

/-- C1, amended: when the delegated collaborator call fails,
`classify_email_thread` catches the failure and returns `'general'`, so
`classify_thread` does not propagate the failure but returns the fixed
default label `'general'` for that thread, regardless of the keyword
heuristic; the keyword fallback inside `classify_thread` runs only when the
processor call itself raises. -/
theorem C1_amended (env : AIEnv) (t : Thread)
    (h : env.classifyCall t = .ok (classifyEmailThread (.error ()))) :
    classifyThread true env t = str "general" := by
  simp only [classifyThread, if_true, h]
  rfl

/-- C1, witness for the amended theorem at the concrete thread and
environment of the counterexample. -/
theorem C1_witness : classifyThread true envAPIFail threadA = str "general" :=
  C1_amended envAPIFail threadA rfl

/-- C2, counterexample: when the delegated extraction call fails at runtime
(the chat-completions call raises and the processor's `extract_requirements`
catches it, returning `[]`), the agent's `extract_requirements` on
`threadNeed` returns the empty sequence, although the local heuristic yields
one keyword-shaped item — refuting the claim that a failing delegated
extraction call makes `extract_requirements` return the heuristic's
result. -/
theorem C2_counterexample :
    extractRequirements true envAPIFail threadNeed = [] ∧
    extractRequirementsBasic threadNeed =
      [.keyword (str "We need a dashboard for tracking.")
        (some (str "carol@example.com")) (some (str "2024-02-02"))] ∧
    extractRequirements true envAPIFail threadNeed ≠
      extractRequirementsBasic threadNeed := by
  decide

/-- C2, amended: when the delegated extraction call fails at runtime, the
processor's `extract_requirements` catches the failure and returns the empty
list, which the agent's `extract_requirements` returns unchanged for that
thread (the run is not aborted); the local heuristic fallback inside the
agent's `extract_requirements` runs only when the processor call itself
raises. -/
theorem C2_amended (env : AIEnv) (t : Thread) (model : Str)
    (h : env.extractCall t = .ok (aiExtractRequirements (.error ()) model)) :
    extractRequirements true env t = [] := by
  simp only [extractRequirements, if_true, h]
  rfl

/-- C2, witness for the amended theorem at the concrete thread and
environment of the counterexample. -/
theorem C2_witness : extractRequirements true envAPIFail threadNeed = [] :=
  C2_amended envAPIFail threadNeed (str "gpt-4") rfl

/-- C3, counterexample: running the pipeline with `use_ai = True` and a
delegated classifier that raises on every call stores one document (the
keyword heuristic classified `THREAD-A` as a requirement), but that
document's `classification_method` is `'AI'`, not `'keyword'` — refuting the
claim that the field records which classification path was actually used. -/
theorem C3_counterexample :
    (processAllRequirements true envRaise 0 [] sampleFile).1.map
      (fun d => d.classification_method) = [str "AI"] ∧
    str "AI" ≠ str "keyword" := by
  decide

/-- C3, amended: if the delegated classifier raises on every call, every
thread is indeed classified by the local keyword heuristic, but
`classification_method` records only the construction-time mode flag: every
stored document has `classification_method = 'AI'` whenever `use_ai` is true
(even though the keyword fallback was used), and `'keyword'` exactly when the
agent runs with `use_ai` false. -/
theorem C3_amended (env : AIEnv) (now : Nat) (t : Thread)
    (h : env.classifyCall t = .error ()) :
    classifyThread true env t =
      (if isRequirementThreadKeyword t then str "requirement"
       else str "general") ∧
    (mkDocument true env now t).classification_method = str "AI" ∧
    (mkDocument false env now t).classification_method = str "keyword" := by
  refine ⟨?_, rfl, rfl⟩
  simp only [classifyThread, if_true, h]

/-- C3, witness for the amended theorem at the raising environment and the
concrete requirement thread. -/
theorem C3_witness :
    classifyThread true envRaise threadA =
      (if isRequirementThreadKeyword threadA then str "requirement"
       else str "general") ∧
    (mkDocument true envRaise 0 threadA).classification_method = str "AI" ∧
    (mkDocument false envRaise 0 threadA).classification_method =
      str "keyword" :=
  C3_amended envRaise 0 threadA rfl

/-- C6: running the pipeline a second time on the same unchanged content
(with the same collaborator behaviour) yields a store of the same length, in
which each document equals its first-run counterpart with at most
`created_at` changed to the second run's timestamp; and after either run the
store holds no two documents with the same `thread_id` (the write is an
upsert keyed by `thread_id`). -/
theorem C6_idempotence (use_ai : Bool) (env : AIEnv) (now₁ now₂ : Nat)
    (content : Str) :
    ((processAllRequirements use_ai env now₂
        (processAllRequirements use_ai env now₁ [] content).1 content).1.length
      = (processAllRequirements use_ai env now₁ [] content).1.length) ∧
    List.Forall₂ (fun dA dB => dB = { dA with created_at := now₂ })
      (processAllRequirements use_ai env now₁ [] content).1
      (processAllRequirements use_ai env now₂
        (processAllRequirements use_ai env now₁ [] content).1 content).1 ∧
    (storeKeys (processAllRequirements use_ai env now₁ [] content).1).Nodup ∧
    (storeKeys (processAllRequirements use_ai env now₂
        (processAllRequirements use_ai env now₁ [] content).1
        content).1).Nodup := by
  have hb : ∀ (now : Nat) (store : Store),
      (processAllRequirements use_ai env now store content).1 =
        applyOps store (reqOps use_ai env now (parseEmailFile content)) := by
    intro now store
    simp [processAllRequirements, processThreads_store_eq]
  set ts := parseEmailFile content with hts
  have hops₁ := reqOps_hops use_ai env now₁ ts
  have hops₂ := reqOps_hops use_ai env now₂ ts
  have hrel := reqOps_rel use_ai env now₁ now₂ ts
  have hnd₁ : (storeKeys (applyOps [] (reqOps use_ai env now₁ ts))).Nodup :=
    applyOps_nodup _ [] hops₁ (by simp)
  have hsub : ∀ p ∈ reqOps use_ai env now₂ ts,
      p.1 ∈ storeKeys (applyOps [] (reqOps use_ai env now₁ ts)) := by
    intro p hp
    apply mem_storeKeys_applyOps _ [] p.1 hops₁
    rw [← reqOps_keys_time use_ai env now₁ now₂ ts]
    exact List.mem_map_of_mem Prod.fst hp
  have hinp : applyOps (applyOps [] (reqOps use_ai env now₁ ts))
      (reqOps use_ai env now₂ ts) =
      (applyOps [] (reqOps use_ai env now₁ ts)).map
        (finalDoc (reqOps use_ai env now₂ ts)) :=
    applyOps_inplace _ _ hops₂ hsub hnd₁
  have hpoint : ∀ d ∈ applyOps [] (reqOps use_ai env now₁ ts),
      finalDoc (reqOps use_ai env now₂ ts) d = bumpTime now₂ d := by
    intro d hd
    rcases applyOps_mem_lastDocFor _ [] d hops₁ (by simp) hd
      with hc | ⟨hm, _⟩
    · have htr := lastDocFor_rel now₂ d.thread_id _ _ hrel
      rw [hc] at htr
      simp [finalDoc, htr]
    · simp at hm
  have hS₁ : (processAllRequirements use_ai env now₁ [] content).1 =
      applyOps [] (reqOps use_ai env now₁ ts) := hb now₁ []
  have hS₂ : (processAllRequirements use_ai env now₂
      (processAllRequirements use_ai env now₁ [] content).1 content).1 =
      (applyOps [] (reqOps use_ai env now₁ ts)).map
        (finalDoc (reqOps use_ai env now₂ ts)) := by
    rw [hb now₂ _, hS₁, hinp]
  have hfa : List.Forall₂ (fun dA dB => dB = bumpTime now₂ dA)
      (processAllRequirements use_ai env now₁ [] content).1
      (processAllRequirements use_ai env now₂
        (processAllRequirements use_ai env now₁ [] content).1 content).1 := by
    rw [hS₂, hS₁]
    exact forall₂_map_self _ _ _ hpoint
  refine ⟨(List.Forall₂.length_eq hfa).symm, hfa, ?_, ?_⟩
  · rw [hS₁]
    exact hnd₁
  · rw [storeKeys_of_rel now₂ _ _ hfa, hS₁]
    exact hnd₁

/-- C7: on the two-block scenario file, the pipeline in local-heuristic mode
stores exactly one document, for `THREAD-A` with category `'requirement'`,
and the run summary reports 2 threads processed, 1 stored, 1 skipped. -/
theorem C7_end_to_end :
    (processAllRequirements false envRaise 7 [] sampleFile).1.map
        (fun d => (d.thread_id, d.category)) =
      [(str "THREAD-A", str "requirement")] ∧
    (processAllRequirements false envRaise 7 [] sampleFile).2 =
      { total := 2, stored := 1, skipped := 1 } := by
  decide

/-- C8: for every response returned by the delegated classification
collaborator, the classifier returns the stripped, lower-cased response
exactly when that value is `'requirement'` or `'general'`; any other value is
normalized to `'general'`. -/
theorem C8_normalization (s : Str) :
    ((toLower (strip s) = str "requirement" ∨
        toLower (strip s) = str "general") →
      classifyEmailThread (.ok s) = toLower (strip s)) ∧
    ((toLower (strip s) ≠ str "requirement" ∧
        toLower (strip s) ≠ str "general") →
      classifyEmailThread (.ok s) = str "general") := by
  constructor
  · intro h
    rcases h with h | h <;> simp [classifyEmailThread, h]
  · rintro ⟨h1, h2⟩
    simp [classifyEmailThread, h1, h2]

/-- C8, witness: a valid label is returned stripped and lower-cased; an
out-of-vocabulary response is normalized to `'general'`. -/
theorem C8_witness :
    classifyEmailThread (.ok (str "  ReQuirement \n")) =
      toLower (strip (str "  ReQuirement \n")) ∧
    classifyEmailThread (.ok (str "yes")) = str "general" :=
  ⟨(C8_normalization (str "  ReQuirement \n")).1 (Or.inl (by decide)),
   (C8_normalization (str "yes")).2 (by decide)⟩

/-- C10: if the AI processor construction raises while the agent is created
with `use_ai = True`, the agent's flag becomes `False` for the whole run, so
every thread is classified and extracted by the local heuristic and every
document assembled for storage has `classification_method = 'keyword'`. -/
theorem C10_whole_run_degradation (env : AIEnv) (now : Nat) (t : Thread)
    (raises : Bool) (h : raises = true) :
    agentInitUseAI true raises = false ∧
    classifyThread (agentInitUseAI true raises) env t =
      (if isRequirementThreadKeyword t then str "requirement"
       else str "general") ∧
    extractRequirements (agentInitUseAI true raises) env t =
      extractRequirementsBasic t ∧
    (mkDocument (agentInitUseAI true raises) env now t).classification_method =
      str "keyword" := by
  subst h
  exact ⟨rfl, rfl, rfl, rfl⟩

/-- C10, witness at a concrete environment and thread. -/
theorem C10_witness :
    agentInitUseAI true true = false ∧
    classifyThread (agentInitUseAI true true) envRaise threadA =
      (if isRequirementThreadKeyword threadA then str "requirement"
       else str "general") ∧
    extractRequirements (agentInitUseAI true true) envRaise threadA =
      extractRequirementsBasic threadA ∧
    (mkDocument (agentInitUseAI true true) envRaise 0
        threadA).classification_method = str "keyword" :=
  C10_whole_run_degradation envRaise 0 threadA true rfl

/-- C4, counterexample: on the header line `From: a From: b` the parser
stores `a  b` in the `from` field — Python `str.replace` removes every
occurrence of the token, not just the leading prefix — whereas the claimed
value (exactly the prefix stripped, remainder trimmed) is `a From: b`. -/
theorem C4_counterexample :
    (parseSingleEmail (str "From: a From: b\nSubject: s")).from_ =
      some (str "a  b") ∧
    (parseSingleEmail (str "From: a From: b\nSubject: s")).from_ ≠
      some (strip (List.drop (str "From:").length
        (str "From: a From: b"))) := by
  decide

/-- C4, amended: scanning the non-blank lines in order, a line prefixed
`From:`, `To:`, `Date:` or `Subject:` populates the corresponding field with
every occurrence of the token removed and the result trimmed (the last such
line wins); encountering `Subject:` sets the body-reading flag; the body is
the newline-join of the individually trimmed subsequent lines that start
with no header token and whose trimmed form is not the separator `---`;
lines before `Subject:` not matching a known token are dropped, as are blank
lines everywhere. -/
theorem C4_amended (s : Str) :
    parseSingleEmail s = specParseSingleEmailAmended s := by
  simp only [parseSingleEmail, specParseSingleEmailAmended]
  rw [parseLinesLoop_eq]
  simp [EmailData.empty]

/-- C5: a thread with zero parsed emails is excluded from the parser's
output (so it never reaches classification, extraction, or storage), and a
thread whose classification result is not `'requirement'` is never stored:
`store_requirement_thread` returns `False` with the store untouched. -/
theorem C5_invariants :
    (∀ content : Str, ∀ t ∈ parseEmailFile content, t.emails ≠ []) ∧
    (∀ (use_ai : Bool) (env : AIEnv) (now : Nat) (store : Store) (t : Thread),
      classifyThread use_ai env t ≠ str "requirement" →
      storeRequirementThread use_ai env now store t = (store, false)) := by
  constructor
  · intro content t ht
    obtain ⟨b, _, hparse⟩ := List.mem_filterMap.mp ht
    unfold parseBlock at hparse
    split at hparse
    · exact absurd hparse (by simp)
    · rename_i hne
      injection hparse with hparse
      rw [← hparse]
      simpa using hne
  · intro use_ai env now store t h
    simp [storeRequirementThread, h]

/-- C5, witness: the requirement thread of the scenario file has an email,
and storing its general thread leaves the store untouched. -/
theorem C5_witness :
    threadA.emails ≠ [] ∧
    storeRequirementThread false envRaise 0 [] threadB = ([], false) :=
  ⟨C5_invariants.1 sampleFile threadA (by decide),
   C5_invariants.2 false envRaise 0 [] threadB (by decide)⟩

/-- C9: the dict returned by `_parse_single_email` always carries a `body`
key and is therefore always truthy, so the segment loop of
`parse_email_file` contributes one email per non-blank segment; a segment
none of whose lines starts with a header token yields the dict whose only
key is an empty body. -/
theorem C9_nonblank_segments_contribute :
    (∀ seg : Str, ((parseSingleEmail seg).body).isSome = true ∧
      (parseSingleEmail seg).isTruthy = true) ∧
    (∀ parts : List Str, (partsLoop parts).length =
      (parts.filter (fun p => !(strip p).isEmpty)).length) ∧
    (∀ seg : Str,
      ((splitOn (str "\n") seg).all (fun l =>
        !((str "From:").isPrefixOf l || (str "To:").isPrefixOf l ||
          (str "Date:").isPrefixOf l || (str "Subject:").isPrefixOf l)))
        = true →
      parseSingleEmail seg = { EmailData.empty with body := some [] }) := by
  refine ⟨fun seg => ⟨parseSingleEmail_body_isSome seg,
    parseSingleEmail_truthy seg⟩, partsLoop_length, fun seg h => ?_⟩
  have hall := List.all_eq_true.mp h
  have hmem : ∀ l ∈ nonblankLines seg,
      (str "From:").isPrefixOf l = false ∧
      (str "To:").isPrefixOf l = false ∧
      (str "Date:").isPrefixOf l = false ∧
      (str "Subject:").isPrefixOf l = false := by
    intro l hl
    simp only [nonblankLines] at hl
    have hx := hall l (List.mem_of_mem_filter hl)
    simp only [Bool.not_eq_eq_eq_not, Bool.not_true, Bool.or_eq_false_iff]
      at hx
    exact ⟨hx.1.1.1, hx.1.1.2, hx.1.2, hx.2⟩
  have hloop := parseLinesLoop_skip (nonblankLines seg)
    EmailData.empty [] hmem
  simp only [parseSingleEmail]
  rw [hloop]
  rfl

/-- C9, witness: a one-line segment with no header tokens yields the dict
whose only key is the empty body. -/
theorem C9_witness :
    parseSingleEmail (str "hello world") =
      { EmailData.empty with body := some [] } :=
  C9_nonblank_segments_contribute.2.2 (str "hello world") (by decide)

end ReqAgent
